import Mathlib

set_option maxRecDepth 8000

/-!
Verification of the openbook-v2 trade printer pipeline
(src/openbookv2-printer/src/main.rs and config.rs).

The development embeds the producer task (log-line decoding and the
block-time diagnostic, main.rs lines 170-253) and the consumer loop
(venue lookup, owner resolution, trade building and publishing,
main.rs lines 255-302) as executable Lean functions, and proves the
spec's claims about them.  Parts of the crate that are not under src/
(logs.rs, utils.rs, the generated Market state) are modelled from the
spec; each such definition carries a doc comment saying so.
-/

namespace OpenbookPrinter

/-- Addresses (Solana pubkeys) are modelled as natural numbers; the code
only ever compares them for equality and uses them as map keys. -/
abbrev Pubkey := Nat

/-! ## String helpers

The producer works on log lines with Rust's `str::contains` and
`str::replace`.  We model both on the underlying character lists. -/

/-- Check whether the pattern is an initial segment of the character list. -/
def leadsWith : List Char → List Char → Bool
  | [], _ => true
  | _ :: _, [] => false
  | p :: ps, c :: cs => p == c && leadsWith ps cs

/-- Substring search, as in Rust's `str::contains`. -/
def containsAux (pat : List Char) : List Char → Bool
  | [] => leadsWith pat []
  | c :: cs => leadsWith pat (c :: cs) || containsAux pat cs

/-- String wrapper of `containsAux`. -/
def strContains (s pat : String) : Bool := containsAux pat.data s.data

/-- The line begins with the pattern, for the spec's "begin with the
sentinel prefix" phrasing. -/
def startsWith (s pat : String) : Bool := leadsWith pat.data s.data

/-- Replace every non-overlapping occurrence of `pat` (left to right) by
`rep`, as in Rust's `str::replace`.  Fuel-indexed structural recursion;
the fuel is instantiated with the length of the scanned list, which
suffices because each step consumes at least one character when the
pattern is non-empty. -/
def replaceAux (pat rep : List Char) : Nat → List Char → List Char
  | _, [] => []
  | 0, l => l
  | fuel + 1, c :: cs =>
      if leadsWith pat (c :: cs) then
        rep ++ replaceAux pat rep fuel (List.drop (pat.length - 1) cs)
      else
        c :: replaceAux pat rep fuel cs

/-- String wrapper of `replaceAux`: `log.replace(pat, rep)`. -/
def strReplace (s pat rep : String) : String :=
  ⟨replaceAux pat.data rep.data s.data.length s.data⟩

/-- The sentinel prefix of program-data log lines (main.rs line 199). -/
def sentinel : String := "Program data: "

/-- The empty string, the replacement used at main.rs line 200. -/
def emptyStr : String := ""

/-- One NUL character, stripped from market names at main.rs line 287. -/
def nulStr : String := ⟨[Char.ofNat 0]⟩

/-! ## Base64

`base64::decode` (anchor's re-export of the base64 crate, main.rs
line 201) with the standard alphabet and `=` padding; the input length
must be a multiple of four. -/

/-- Value of one base64 alphabet character. -/
def b64Val (c : Char) : Option Nat :=
  if 'A' ≤ c ∧ c ≤ 'Z' then some (c.toNat - 65)
  else if 'a' ≤ c ∧ c ≤ 'z' then some (c.toNat - 71)
  else if '0' ≤ c ∧ c ≤ '9' then some (c.toNat + 4)
  else if c = '+' then some 62
  else if c = '/' then some 63
  else none

/-- Decode base64 character groups of four into bytes; padding only in
the final group. -/
def b64DecodeAux : List Char → Option (List Nat)
  | [] => some []
  | c1 :: c2 :: c3 :: c4 :: rest => do
      let v1 ← b64Val c1
      let v2 ← b64Val c2
      if c3 = '=' then
        if c4 = '=' ∧ rest = [] then some [v1 * 4 + v2 / 16] else none
      else do
        let v3 ← b64Val c3
        if c4 = '=' then
          if rest = [] then some [v1 * 4 + v2 / 16, v2 % 16 * 16 + v3 / 4] else none
        else do
          let v4 ← b64Val c4
          let tail ← b64DecodeAux rest
          some ((v1 * 4 + v2 / 16) :: (v2 % 16 * 16 + v3 / 4) :: (v3 % 4 * 64 + v4) :: tail)
  | _ => none

/-- Base64 decoding of a string to bytes; `none` models a decode error,
which the producer turns into a panic via `.unwrap()`. -/
def base64Decode (s : String) : Option (List Nat) := b64DecodeAux s.data

/-! ## FillLog -/

/-- Modelled from the spec: `FillLog` lives in logs.rs, which is not
under src/.  Section 3 of the spec lists the FillEvent fields: venue
address ("market"), maker and taker sub-account addresses, price,
quantity, side, and a sequence number. -/
structure FillLog where
  market : Pubkey
  maker : Pubkey
  taker : Pubkey
  takerSide : Nat
  price : Nat
  quantity : Nat
  seqNum : Nat
deriving DecidableEq

/-- Read `n` bytes little-endian into a value, returning the rest of the
stream; fails when fewer than `n` bytes remain. -/
def readLE : Nat → List Nat → Option (Nat × List Nat)
  | 0, bs => some (0, bs)
  | _ + 1, [] => none
  | n + 1, b :: bs => do
      let (v, rest) ← readLE n bs
      some (b + 256 * v, rest)

/-- Modelled from the spec: the borsh-style deserializer of logs.rs is
not under src/.  Fields are read in declaration order with a fixed
binary layout (32-byte addresses, 1-byte side, 8-byte integers); a
payload with too few bytes is malformed and fails, and trailing bytes
are ignored, as for a stream deserializer. -/
def FillLog.deserialize (bs : List Nat) : Option FillLog := do
  let (market, bs) ← readLE 32 bs
  let (maker, bs) ← readLE 32 bs
  let (taker, bs) ← readLE 32 bs
  let (side, bs) ← readLE 1 bs
  let (price, bs) ← readLE 8 bs
  let (quantity, bs) ← readLE 8 bs
  let (seqNum, _) ← readLE 8 bs
  some ⟨market, maker, taker, side, price, quantity, seqNum⟩

/-- Modelled from the spec: `FillLog::discriminator()` comes from the
anchor event derive (not under src/); it is the first eight bytes of
sha256 of the string `event:FillLog`. -/
def fillLogDiscriminator : List Nat := [150, 23, 41, 148, 152, 162, 215, 64]

/-! ## Producer: log-line processing (main.rs lines 198-233) -/

/-- Panics the producer task can hit, each a `.unwrap()` or an
unchecked slice in main.rs. -/
inductive PanicKind where
  /-- base64 decode failed and was unwrapped (line 201). -/
  | base64Unwrap
  /-- `data.as_slice()[..8]` on fewer than 8 bytes (line 202). -/
  | sliceOob
  /-- `FillLog::deserialize(..).unwrap()` failed (line 230). -/
  | deserializeUnwrap
deriving DecidableEq

/-- Producer-side diagnostic state: the running event counter and the
current check threshold (main.rs lines 171-172). -/
structure PState where
  counter : Nat
  check : Nat
deriving DecidableEq

/-- Outcome of the pure log-line classification, main.rs lines 199-202:
sentinel check, prefix removal, base64 decode (unwrapped), the 8-byte
slice, and the discriminator comparison. -/
inductive Decoded where
  /-- No sentinel, or the leading 8 bytes differ from the tag. -/
  | noEvent
  /-- base64 decode failed: the `.unwrap()` at line 201 panics. -/
  | failB64
  /-- Decoded bytes shorter than 8: the slice at line 202 panics. -/
  | failSlice
  /-- Discriminator matched; the payload after the tag. -/
  | matched (payload : List Nat)
deriving DecidableEq

/-- Classify one log line, main.rs lines 199-202. -/
def classifyLine (line : String) : Decoded :=
  if strContains line sentinel then
    match base64Decode (strReplace line sentinel emptyStr) with
    | none => .failB64
    | some bytes =>
      if bytes.length < 8 then .failSlice
      else if bytes.take 8 = fillLogDiscriminator then .matched (bytes.drop 8)
      else .noEvent
  else .noEvent

/-- Process one log line in the producer task, main.rs lines 198-233:
classification, then (on a discriminator match) the block-time
diagnostic check with its `check = 0` reset, then the deserialize
unwrap and the channel push with the counter increment.  Returns the
new state, whether the diagnostic fired, and the pushed event, or the
panic that killed the task. -/
def processLogLine (st : PState) (line : String) :
    Except PanicKind (PState × Bool × Option FillLog) :=
  match classifyLine line with
  | .noEvent => .ok (st, false, none)
  | .failB64 => .error .base64Unwrap
  | .failSlice => .error .sliceOob
  | .matched payload =>
    let fired := decide (st.check ≤ st.counter)
    let newCheck := if fired then 0 else st.check
    match FillLog.deserialize payload with
    | none => .error .deserializeUnwrap
    | some fl => .ok (⟨st.counter + 1, newCheck⟩, fired, some fl)

/-- Run the producer over a list of log lines, collecting one diagnostic
flag per pushed event and the pushed events, or stopping at the first
panic. -/
def runProducer (st : PState) : List String →
    Except PanicKind (PState × List Bool × List FillLog)
  | [] => .ok (st, [], [])
  | line :: rest =>
    match processLogLine st line with
    | .error k => .error k
    | .ok (st', fired, pushed) =>
      match runProducer st' rest with
      | .error k => .error k
      | .ok (stF, flags, evs) =>
        .ok (stF, (if pushed.isSome then [fired] else []) ++ flags, pushed.toList ++ evs)

/-- The per-event diagnostic flags of a producer run, when it does not
panic. -/
def producerFlags (st : PState) (lines : List String) : Option (List Bool) :=
  (runProducer st lines).toOption.map (fun x => x.2.1)

/-- The line decodes to a fill event: sentinel present, base64 valid,
at least 8 bytes, discriminator matched, payload well-formed. -/
def decodesEvent (line : String) : Bool :=
  match classifyLine line with
  | .matched payload => (FillLog.deserialize payload).isSome
  | _ => false

/-! ## Consumer: enrichment and publishing (main.rs lines 255-302) -/

/-- Modelled from the spec: the generated `Market` state is not under
src/.  Section 3 gives a venue "fixed-point decimal scaling for price
and quantity"; only the fields the trade scaling consumes are kept. -/
structure Market where
  baseDecimals : Nat
  quoteDecimals : Nat
  baseLotSize : Nat
  quoteLotSize : Nat
deriving DecidableEq

/-- Modelled from the spec: `Trade` lives in logs.rs, which is not
under src/.  Section 3 lists the TradeRecord fields: venue name,
resolved maker and taker owner addresses, price and quantity in
decimal form, and the transaction signature. -/
structure Trade where
  marketName : String
  maker : Pubkey
  taker : Pubkey
  price : Nat
  quantity : Nat
  signature : String
deriving DecidableEq

/-- Modelled from the spec: `Trade::new` (logs.rs, not under src/)
derives the record deterministically from the fill, the venue metadata
and the signature, scaling price and quantity "into human-readable
decimal form using the venue's metadata"; a plain lot-size scaling
stands in for the exact arithmetic of utils.rs. -/
def Trade.new (fl : FillLog) (m : Market) (name : String) (sig : String) : Trade :=
  { marketName := name
    maker := fl.maker
    taker := fl.taker
    price := fl.price * m.quoteLotSize
    quantity := fl.quantity * m.baseLotSize
    signature := sig }

/-- The owner-resolution map `ooa2owner` (a `BTreeMap`), as an
association list with unique keys maintained by `mapInsert`. -/
abbrev Cache := List (Pubkey × Pubkey)

/-- Map lookup (`BTreeMap::get` / `contains_key`). -/
def mapFind (k : Pubkey) : List (Pubkey × α) → Option α
  | [] => none
  | (k', v) :: rest => if k = k' then some v else mapFind k rest

/-- Map insert (`BTreeMap::insert`), replacing the value when the key is
present. -/
def mapInsert (k : Pubkey) (v : α) : List (Pubkey × α) → List (Pubkey × α)
  | [] => [(k, v)]
  | (k', v') :: rest => if k = k' then (k, v) :: rest else (k', v') :: mapInsert k v rest

/-- Modelled from the spec: `get_owner_account_for_ooa` lives in
utils.rs, which is not under src/.  Per section 4.2 a cache hit
returns the cached controlling address with no I/O, and a miss queries
the external account-data source for the sub-account's declared owner,
yielding nothing when the lookup fails or the account has no owner.
main.rs passes the cache by shared reference, so the function itself
cannot insert; insertion is done (guardedly) by the caller.  The
external source is a parameter `extOwner`, and the list of keys sent
to it is returned so external calls can be counted. -/
def get_owner_account_for_ooa (extOwner : Pubkey → Option Pubkey) (cache : Cache)
    (key : Pubkey) : Option Pubkey × List Pubkey :=
  match mapFind key cache with
  | some owner => (some owner, [])
  | none => (extOwner key, [key])

/-- Result of one owner-resolution block of the consumer loop. -/
structure ResOut where
  cache : Cache
  owner : Pubkey
  calls : List Pubkey
deriving DecidableEq

/-- One owner-resolution block of the consumer loop (main.rs lines
268-275 for the maker, repeated at 276-283 for the taker): call the
resolver; when it returns an owner, insert it into the cache only if
the key is already present (the code's guard as written), and
substitute the owner into the fill; otherwise leave both untouched, so
the sub-account itself remains in place. -/
def resolveOne (extOwner : Pubkey → Option Pubkey) (cache : Cache) (key : Pubkey) : ResOut :=
  match get_owner_account_for_ooa extOwner cache key with
  | (some owner, calls) =>
      ⟨if (mapFind key cache).isSome then mapInsert key owner cache else cache, owner, calls⟩
  | (none, calls) => ⟨cache, key, calls⟩

/-- The only panic in the consumer body: `market_names.get(..).unwrap()`
at main.rs line 267. -/
inductive ConsPanic where
  /-- Venue present in `markets` but missing from `market_names`. -/
  | nameUnwrap
deriving DecidableEq

/-- Observable outcome of one consumer iteration. -/
structure StepOut where
  cache : Cache
  sent : Option Trade
  extCalls : List Pubkey
  warned : Bool
  sendErr : Bool
deriving DecidableEq

/-- One iteration of the consumer loop (main.rs lines 265-301): look
the venue up in `markets`; if absent, warn and drop the item; else
fetch its name (unwrapped), resolve maker then taker through the
cache, build and serialize the trade (the venue name with NULs
stripped), and send it on the socket, logging but swallowing a send
error. `sendOk` models the socket's answer. -/
def consumerStep (markets : List (Pubkey × Market)) (marketNames : List (Pubkey × String))
    (extOwner : Pubkey → Option Pubkey) (sendOk : Trade → Bool)
    (cache : Cache) (item : FillLog × String) : Except ConsPanic StepOut :=
  let fl := item.1
  let txHash := item.2
  match mapFind fl.market markets with
  | none => .ok ⟨cache, none, [], true, false⟩
  | some market =>
    match mapFind fl.market marketNames with
    | none => .error .nameUnwrap
    | some marketName =>
      let r1 := resolveOne extOwner cache fl.maker
      let fl1 : FillLog := { fl with maker := r1.owner }
      let r2 := resolveOne extOwner r1.cache fl1.taker
      let fl2 : FillLog := { fl1 with taker := r2.owner }
      let trade := Trade.new fl2 market (strReplace marketName nulStr emptyStr) txHash
      .ok ⟨r2.cache, some trade, r1.calls ++ r2.calls, false, !sendOk trade⟩

/-- Observable outcome of a consumer run over a list of channel items. -/
structure RunOut where
  cache : Cache
  sends : List Trade
  extCalls : List Pubkey
  warnCount : Nat
  sendErrCount : Nat
  panicked : Bool
deriving DecidableEq

/-- Run the consumer loop over the channel items in order, stopping
only if the body panics. -/
def seqRun (markets : List (Pubkey × Market)) (marketNames : List (Pubkey × String))
    (extOwner : Pubkey → Option Pubkey) (sendOk : Trade → Bool) :
    Cache → List (FillLog × String) → RunOut
  | cache, [] => ⟨cache, [], [], 0, 0, false⟩
  | cache, item :: rest =>
    match consumerStep markets marketNames extOwner sendOk cache item with
    | .error _ => ⟨cache, [], [], 0, 0, true⟩
    | .ok out =>
      let r := seqRun markets marketNames extOwner sendOk out.cache rest
      ⟨r.cache, out.sent.toList ++ r.sends, out.extCalls ++ r.extCalls,
       (if out.warned then 1 else 0) + r.warnCount,
       (if out.sendErr then 1 else 0) + r.sendErrCount, r.panicked⟩

/-! ## The channel between the two tasks (main.rs line 166)

The producer task and the consumer loop communicate over a tokio
unbounded mpsc channel: sends append at the tail, `recv` takes the
head.  An interleaved execution of the two tasks is a schedule of
atomic steps. -/

/-- Joint state of producer, channel and consumer. -/
structure Sys where
  pending : List (FillLog × String)
  queue : List (FillLog × String)
  cache : Cache
  sends : List Trade
  panicked : Bool

/-- One atomic step of the two-task system: `true` lets the producer
push its next decoded event onto the channel tail; `false` lets the
consumer pop the channel head and run one loop iteration.  A task with
nothing to do (or a dead process) leaves the state unchanged. -/
def sysStep (markets : List (Pubkey × Market)) (marketNames : List (Pubkey × String))
    (extOwner : Pubkey → Option Pubkey) (sendOk : Trade → Bool)
    (a : Bool) (s : Sys) : Sys :=
  if s.panicked then s
  else if a then
    match s.pending with
    | [] => s
    | item :: rest => { s with pending := rest, queue := s.queue ++ [item] }
  else
    match s.queue with
    | [] => s
    | item :: rest =>
      match consumerStep markets marketNames extOwner sendOk s.cache item with
      | .error _ => { s with panicked := true }
      | .ok out =>
        { s with queue := rest, cache := out.cache, sends := s.sends ++ out.sent.toList }

/-- Run the two-task system under a schedule. -/
def sysRun (markets : List (Pubkey × Market)) (marketNames : List (Pubkey × String))
    (extOwner : Pubkey → Option Pubkey) (sendOk : Trade → Bool) :
    List Bool → Sys → Sys
  | [], s => s
  | a :: sched, s =>
      sysRun markets marketNames extOwner sendOk sched
        (sysStep markets marketNames extOwner sendOk a s)

/-! ## Concrete fixtures

A well-formed fill payload: discriminator, then market address 1,
maker sub-account 5, taker sub-account 6, side 0, price 100,
quantity 7, sequence number 42, base64-encoded into a program-data
log line. -/

/-- A well-formed program-data log line carrying a fill event. -/
def goodLine : String := "Program data: lhcplJii10ABAAAAAAAAAAAAAAAAAAAAAAAAAAAAAAAAAAAAAAAAAAUAAAAAAAAAAAAAAAAAAAAAAAAAAAAAAAAAAAAAAAAABgAAAAAAAAAAAAAAAAAAAAAAAAAAAAAAAAAAAAAAAAAAZAAAAAAAAAAHAAAAAAAAACoAAAAAAAAA"

/-- The same payload with the sentinel moved into the middle of the
base64 text: the line contains the sentinel but does not begin with
it, and removing the sentinel reconstitutes the full payload. -/
def splitLine : String := "lhcpProgram data: lJii10ABAAAAAAAAAAAAAAAAAAAAAAAAAAAAAAAAAAAAAAAAAAUAAAAAAAAAAAAAAAAAAAAAAAAAAAAAAAAAAAAAAAAABgAAAAAAAAAAAAAAAAAAAAAAAAAAAAAAAAAAAAAAAAAAZAAAAAAAAAAHAAAAAAAAACoAAAAAAAAA"

/-- A sentinel line whose base64 payload decodes to only three bytes. -/
def shortLine : String := "Program data: AAAA"

/-- A sentinel line whose payload is exactly the 8-byte discriminator,
leaving a malformed (empty) remainder for the deserializer. -/
def tagLine : String := "Program data: lhcplJii10A="

/-- A typical log line without the sentinel. -/
def helloLine : String := "Program log: Instruction: PlaceOrder"

/-- The fill event encoded in `goodLine` and `splitLine`. -/
def fillFix : FillLog := ⟨1, 5, 6, 0, 100, 7, 42⟩

/-- Venue metadata fixture. -/
def mktFix : Market := ⟨9, 6, 100, 10⟩

/-- Fill fixture with a chosen venue, maker and taker. -/
def mkFill (market maker taker : Pubkey) : FillLog := ⟨market, maker, taker, 0, 100, 7, 42⟩

/-- Signature fixture. -/
def sigA : String := "sigA"

/-- Second signature fixture. -/
def sigB : String := "sigB"

/-- Venue display-name fixture. -/
def nameM : String := "MKT"

/-- External source fixture: sub-account 5 resolves to owner 9, every
other lookup fails. -/
def oracleFix : Pubkey → Option Pubkey := fun k => if k = 5 then some 9 else none

/-- External source fixture on which every lookup fails. -/
def oracleNone : Pubkey → Option Pubkey := fun _ => none

/-- Socket fixture: every send succeeds. -/
def sendAlwaysOk : Trade → Bool := fun _ => true

/-! ## Claims about the producer task -/

/-- C3: the spec says a sentinel line whose decoded payload is shorter
than 8 bytes yields nothing and never indexes out of range.  The code
has no length check: `data.as_slice()[..8]` at main.rs line 202 is an
out-of-bounds slice on this 3-byte payload and panics the producer
task. -/
theorem c3_short_payload_out_of_bounds :
    strContains shortLine sentinel = true ∧
    base64Decode (strReplace shortLine sentinel emptyStr) = some [0, 0, 0] ∧
    processLogLine ⟨0, 1000⟩ shortLine = .error .sliceOob :=
  ⟨by decide, by decide, rfl⟩

/-- C4: the spec says a payload whose leading 8 bytes equal the tag but
whose remainder is malformed is logged and dropped, with the process
kept running.  The code unwraps `FillLog::deserialize` at main.rs
line 230: on this payload (the bare tag with an empty remainder) the
deserializer fails and the unwrap panics the producer task instead of
dropping the event. -/
theorem c4_malformed_payload_panics :
    base64Decode (strReplace tagLine sentinel emptyStr) = some fillLogDiscriminator ∧
    FillLog.deserialize [] = none ∧
    processLogLine ⟨0, 1000⟩ tagLine = .error .deserializeUnwrap :=
  ⟨by decide, by decide, rfl⟩

/-- C5 is false as stated: `splitLine` does not begin with the sentinel
prefix, yet the decode step pushes a fill event, because main.rs
line 199 tests substring containment (`log.contains`) and line 200
removes every occurrence, not a prefix. -/
theorem c5_counterexample :
    startsWith splitLine sentinel = false ∧
    processLogLine ⟨0, 1000⟩ splitLine = .ok (⟨1, 1000⟩, false, some fillFix) :=
  ⟨by decide, rfl⟩

/-- C5 (amended): for every log line that does not contain the sentinel
substring anywhere, the decode step yields nothing: no fill event, no
channel push, no panic, and the diagnostic state is untouched. -/
theorem c5_no_sentinel_no_event (st : PState) (line : String)
    (h : strContains line sentinel = false) :
    processLogLine st line = .ok (st, false, none) := by
  unfold processLogLine classifyLine
  rw [h]
  simp

/-- C5 witness: the amended theorem applied to a concrete log line
without the sentinel. -/
theorem c5_witness :
    strContains helloLine sentinel = false ∧
    processLogLine ⟨0, 1000⟩ helloLine = .ok (⟨0, 1000⟩, false, none) :=
  ⟨by decide, c5_no_sentinel_no_event ⟨0, 1000⟩ helloLine (by decide)⟩

/-- Unfolding of a successful decode: when a line decodes to an event,
processing it from any state fires the diagnostic exactly when the
counter has reached the check threshold, zeroes the threshold on a
fire, increments the counter, and pushes the event. -/
theorem processLogLine_decodes {line : String} (h : decodesEvent line = true) (n k : Nat) :
    ∃ fl, processLogLine ⟨n, k⟩ line =
      .ok (⟨n + 1, if k ≤ n then 0 else k⟩, decide (k ≤ n), some fl) := by
  unfold decodesEvent at h
  cases hc : classifyLine line with
  | noEvent => rw [hc] at h; exact absurd h (by simp)
  | failB64 => rw [hc] at h; exact absurd h (by simp)
  | failSlice => rw [hc] at h; exact absurd h (by simp)
  | matched payload =>
    rw [hc] at h
    simp only [Option.isSome_iff_exists] at h
    obtain ⟨fl, hfl⟩ := h
    refine ⟨fl, ?_⟩
    unfold processLogLine
    rw [hc]
    by_cases hk : k ≤ n <;> simp [hfl, hk]

/-- Cons step of the diagnostic flag sequence: firing with threshold k
at counter n, then continuing with the updated threshold, matches the
closed form over the original threshold. -/
theorem flags_range_succ (n k m : Nat) :
    decide (k ≤ n) ::
      (List.range m).map (fun i => decide ((if k ≤ n then 0 else k) ≤ n + 1 + i)) =
    (List.range (m + 1)).map (fun i => decide (k ≤ n + i)) := by
  rw [List.range_succ_eq_map, List.map_cons, List.map_map]
  refine congrArg₂ List.cons (by simp) ?_
  refine List.map_congr_left (fun i _ => ?_)
  by_cases hk : k ≤ n <;>
    simp only [hk, if_true, if_false, Function.comp_apply, decide_eq_decide] <;>
    constructor <;> omega

/-- Flags of a producer run over lines that all decode, from an
arbitrary counter and threshold: the i-th event (0-indexed, counter
starting at n) fires the diagnostic exactly when k ≤ n + i, because
the check precedes the counter increment and a fire zeroes the
threshold so that every later event fires as well. -/
theorem runProducer_flags (lines : List String) :
    ∀ n k : Nat, (∀ l ∈ lines, decodesEvent l = true) →
    ∃ stF evs, runProducer ⟨n, k⟩ lines =
      .ok (stF, (List.range lines.length).map (fun i => decide (k ≤ n + i)), evs) := by
  induction lines with
  | nil => exact fun n k _ => ⟨⟨n, k⟩, [], rfl⟩
  | cons l rest ih =>
    intro n k hall
    obtain ⟨fl, hstep⟩ := processLogLine_decodes (hall l (by simp)) n k
    obtain ⟨stF, evs, hrest⟩ :=
      ih (n + 1) (if k ≤ n then 0 else k) (fun x hx => hall x (by simp [hx]))
    refine ⟨stF, fl :: evs, ?_⟩
    simp only [runProducer, hstep, hrest, Option.isSome_some, if_true,
      Option.toList_some, List.singleton_append, List.length_cons]
    rw [flags_range_succ]

/-- C1 is false on the code: with `check = 2` and four decoded events,
the block-time diagnostic fires on the third event and then fires
again on the fourth — it neither fires on the second event nor stops
after its first firing, because `counter >= check` is tested before
the increment and setting `check = 0` (main.rs line 225) makes every
later event satisfy the test. -/
theorem c1_counterexample :
    producerFlags ⟨0, 2⟩ [goodLine, goodLine, goodLine, goodLine] =
      some [false, false, true, true] ∧
    ([false, false, true, true].filter id).length = 2 :=
  ⟨by decide, by decide⟩

/-- C1 (amended): over any sequence of decoded events and any
configured threshold c, the diagnostic fires on event i (0-indexed)
exactly when c ≤ i: it first fires on event number c + 1 (1-indexed)
and on every decoded event after that, for the remainder of the run. -/
theorem c1_diagnostic_fires_from_threshold_on (c : Nat) (lines : List String)
    (h : ∀ l ∈ lines, decodesEvent l = true) :
    producerFlags ⟨0, c⟩ lines =
      some ((List.range lines.length).map (fun i => decide (c ≤ i))) := by
  obtain ⟨stF, evs, hrun⟩ := runProducer_flags lines 0 c h
  unfold producerFlags
  rw [hrun]
  simp
  exact ⟨stF, evs, rfl⟩

/-- C1 witness: the amended theorem applied to three concrete decoded
events with threshold 2; the flag list evaluates to
[false, false, true]. -/
theorem c1_witness :
    (∀ l ∈ [goodLine, goodLine, goodLine], decodesEvent l = true) ∧
    producerFlags ⟨0, 2⟩ [goodLine, goodLine, goodLine] =
      some ((List.range (3 : Nat)).map (fun i => decide (2 ≤ i))) :=
  ⟨by decide, c1_diagnostic_fires_from_threshold_on 2 [goodLine, goodLine, goodLine] (by decide)⟩

/-! ## Claims about the consumer loop -/

/-- Consumer run fixture for the repeated-maker scenario: two fills on
venue 1 with the same maker sub-account 5 (resolvable to owner 9) and
taker 6 (unresolvable), starting from the empty cache. -/
def c2Run : RunOut :=
  seqRun [(1, mktFix)] [(1, nameM)] oracleFix sendAlwaysOk []
    [(mkFill 1 5 6, sigA), (mkFill 1 5 6, sigB)]

/-- C2 is violated by the code: resolving maker sub-account 5 across
two fills queries the external source for key 5 twice, not once —
the insert at main.rs lines 271-273 is guarded by
`ooa2owner.contains_key`, so a first-time resolution is never cached
and the map stays empty.  Both resolutions do return the same owner 9. -/
theorem c2_second_resolution_hits_external :
    c2Run.extCalls = [5, 6, 5, 6] ∧
    (c2Run.extCalls.filter (fun k => k == 5)).length = 2 ∧
    c2Run.sends.map (fun t => t.maker) = [9, 9] ∧
    c2Run.cache = [] :=
  ⟨by decide, by decide, by decide, by decide⟩

/-- C6: when the external lookup fails for both counter-parties (and
the cache has no entry for them), the consumer step leaves the cache
untouched, still performs one external call per key (so a later
resolution retries), publishes the trade with the sub-account
addresses themselves as maker and taker (pass-through fallback), and
returns normally, so the loop continues. -/
theorem c6_lookup_failure_passthrough
    (markets : List (Pubkey × Market)) (marketNames : List (Pubkey × String))
    (extOwner : Pubkey → Option Pubkey) (sendOk : Trade → Bool)
    (cache : Cache) (fl : FillLog) (sig : String) (m : Market) (nm : String)
    (hm : mapFind fl.market markets = some m)
    (hn : mapFind fl.market marketNames = some nm)
    (hcm : mapFind fl.maker cache = none)
    (hct : mapFind fl.taker cache = none)
    (hom : extOwner fl.maker = none)
    (hot : extOwner fl.taker = none) :
    consumerStep markets marketNames extOwner sendOk cache (fl, sig) =
      .ok ⟨cache, some (Trade.new fl m (strReplace nm nulStr emptyStr) sig),
           [fl.maker, fl.taker], false,
           !sendOk (Trade.new fl m (strReplace nm nulStr emptyStr) sig)⟩ := by
  simp only [consumerStep, resolveOne, get_owner_account_for_ooa,
    hm, hn, hcm, hct, hom, hot]
  rfl

/-- C6 witness: the theorem applied to a concrete fill whose maker and
taker both fail the external lookup, from a non-empty cache without
their keys. -/
theorem c6_witness :
    oracleNone (mkFill 1 5 6).maker = none ∧
    consumerStep [(1, mktFix)] [(1, nameM)] oracleNone sendAlwaysOk [(100, 200)]
        (mkFill 1 5 6, sigA) =
      .ok ⟨[(100, 200)],
           some (Trade.new (mkFill 1 5 6) mktFix (strReplace nameM nulStr emptyStr) sigA),
           [(mkFill 1 5 6).maker, (mkFill 1 5 6).taker], false,
           !sendAlwaysOk (Trade.new (mkFill 1 5 6) mktFix (strReplace nameM nulStr emptyStr) sigA)⟩ :=
  ⟨by decide,
   c6_lookup_failure_passthrough _ _ _ _ _ _ _ _ _
     (by decide) (by decide) (by decide) (by decide) (by decide) (by decide)⟩

/-- Every trade a consumer step emits carries the display name of a
venue found in both startup tables. -/
theorem consumerStep_sent_known
    {markets : List (Pubkey × Market)} {marketNames : List (Pubkey × String)}
    {extOwner : Pubkey → Option Pubkey} {sendOk : Trade → Bool}
    {cache : Cache} {item : FillLog × String} {out : StepOut}
    (hstep : consumerStep markets marketNames extOwner sendOk cache item = .ok out)
    {t : Trade} (hsent : out.sent = some t) :
    ∃ k m nm, mapFind k markets = some m ∧ mapFind k marketNames = some nm ∧
      t.marketName = strReplace nm nulStr emptyStr := by
  simp only [consumerStep] at hstep
  cases hm : mapFind item.1.market markets with
  | none =>
    rw [hm] at hstep
    injection hstep with h
    rw [← h] at hsent
    simp at hsent
  | some m =>
    rw [hm] at hstep
    cases hn : mapFind item.1.market marketNames with
    | none => rw [hn] at hstep; cases hstep
    | some nm =>
      rw [hn] at hstep
      injection hstep with h
      refine ⟨item.1.market, m, nm, hm, hn, ?_⟩
      rw [← h] at hsent
      simp only [Option.some.injEq] at hsent
      rw [← hsent]
      rfl

/-- Every trade published during a consumer run references a venue
present in both startup tables. -/
theorem seqRun_sends_known (markets : List (Pubkey × Market))
    (marketNames : List (Pubkey × String)) (extOwner : Pubkey → Option Pubkey)
    (sendOk : Trade → Bool) (items : List (FillLog × String)) :
    ∀ cache : Cache,
      ∀ t ∈ (seqRun markets marketNames extOwner sendOk cache items).sends,
        ∃ k m nm, mapFind k markets = some m ∧ mapFind k marketNames = some nm ∧
          t.marketName = strReplace nm nulStr emptyStr := by
  induction items with
  | nil => intro cache t ht; simp [seqRun] at ht
  | cons item rest ih =>
    intro cache t ht
    simp only [seqRun] at ht
    cases hstep : consumerStep markets marketNames extOwner sendOk cache item with
    | error e => rw [hstep] at ht; simp at ht
    | ok out =>
      rw [hstep] at ht
      simp only [List.mem_append] at ht
      rcases ht with h1 | h2
      · exact consumerStep_sent_known hstep (by simpa using h1)
      · exact ih out.cache t h2

/-- C7: a dequeued item whose venue address is not in the startup
tables is warned about and discarded: the cache is untouched, no
external owner lookup happens, no trade is built or sent; and every
trade a consumer run ever publishes carries the display name of a
venue known at startup. -/
theorem c7_unknown_venue_dropped
    (markets : List (Pubkey × Market)) (marketNames : List (Pubkey × String))
    (extOwner : Pubkey → Option Pubkey) (sendOk : Trade → Bool)
    (cache cache0 : Cache) (fl : FillLog) (sig : String)
    (items : List (FillLog × String))
    (h : mapFind fl.market markets = none) :
    consumerStep markets marketNames extOwner sendOk cache (fl, sig) =
      .ok ⟨cache, none, [], true, false⟩ ∧
    ∀ t ∈ (seqRun markets marketNames extOwner sendOk cache0 items).sends,
      ∃ k m nm, mapFind k markets = some m ∧ mapFind k marketNames = some nm ∧
        t.marketName = strReplace nm nulStr emptyStr :=
  ⟨by simp only [consumerStep, h],
   seqRun_sends_known markets marketNames extOwner sendOk items cache0⟩

/-- C7 witness: the theorem applied to a concrete fill on venue 2,
absent from the startup tables that only know venue 1, alongside a
run that publishes one trade for the known venue. -/
theorem c7_witness :
    mapFind (mkFill 2 5 6).market [(1, mktFix)] = none ∧
    (consumerStep [(1, mktFix)] [(1, nameM)] oracleFix sendAlwaysOk [] (mkFill 2 5 6, sigA) =
       .ok ⟨[], none, [], true, false⟩ ∧
     ∀ t ∈ (seqRun [(1, mktFix)] [(1, nameM)] oracleFix sendAlwaysOk []
              [(mkFill 1 5 6, sigA)]).sends,
       ∃ k m nm, mapFind k [(1, mktFix)] = some m ∧ mapFind k [(1, nameM)] = some nm ∧
         t.marketName = strReplace nm nulStr emptyStr) :=
  ⟨by decide, c7_unknown_venue_dropped _ _ _ _ _ _ _ _ _ (by decide)⟩

/-- One consumer iteration is unaffected by the socket's answer except
for the error log: stripping the sendErr flag makes the outcomes under
any two socket behaviors identical. -/
theorem consumerStep_send_indep (markets : List (Pubkey × Market))
    (marketNames : List (Pubkey × String)) (extOwner : Pubkey → Option Pubkey)
    (s1 s2 : Trade → Bool) (cache : Cache) (item : FillLog × String) :
    (consumerStep markets marketNames extOwner s1 cache item).map
        (fun o => { o with sendErr := false }) =
      (consumerStep markets marketNames extOwner s2 cache item).map
        (fun o => { o with sendErr := false }) := by
  simp only [consumerStep]
  cases mapFind item.1.market markets with
  | none => rfl
  | some m =>
    cases mapFind item.1.market marketNames with
    | none => rfl
    | some nm => rfl

/-- A consumer run publishes the same trades in the same order, ends
with the same cache, the same external calls, the same warnings and
the same panic status under any two socket behaviors. -/
theorem seqRun_send_indep (markets : List (Pubkey × Market))
    (marketNames : List (Pubkey × String)) (extOwner : Pubkey → Option Pubkey)
    (s1 s2 : Trade → Bool) (items : List (FillLog × String)) :
    ∀ cache : Cache,
      (seqRun markets marketNames extOwner s1 cache items).sends =
        (seqRun markets marketNames extOwner s2 cache items).sends ∧
      (seqRun markets marketNames extOwner s1 cache items).cache =
        (seqRun markets marketNames extOwner s2 cache items).cache ∧
      (seqRun markets marketNames extOwner s1 cache items).extCalls =
        (seqRun markets marketNames extOwner s2 cache items).extCalls ∧
      (seqRun markets marketNames extOwner s1 cache items).warnCount =
        (seqRun markets marketNames extOwner s2 cache items).warnCount ∧
      (seqRun markets marketNames extOwner s1 cache items).panicked =
        (seqRun markets marketNames extOwner s2 cache items).panicked := by
  induction items with
  | nil => exact fun cache => ⟨rfl, rfl, rfl, rfl, rfl⟩
  | cons item rest ih =>
    intro cache
    have hind := consumerStep_send_indep markets marketNames extOwner s1 s2 cache item
    cases h1 : consumerStep markets marketNames extOwner s1 cache item with
    | error e1 =>
      cases h2 : consumerStep markets marketNames extOwner s2 cache item with
      | error e2 => simp [seqRun, h1, h2]
      | ok out2 => rw [h1, h2] at hind; simp [Except.map] at hind
    | ok out1 =>
      cases h2 : consumerStep markets marketNames extOwner s2 cache item with
      | error e2 => rw [h1, h2] at hind; simp [Except.map] at hind
      | ok out2 =>
        rw [h1, h2] at hind
        simp only [Except.map, Except.ok.injEq, StepOut.mk.injEq, and_true] at hind
        obtain ⟨hc, hs, hx, hw⟩ := hind
        obtain ⟨ihs, ihc, ihx, ihw, ihp⟩ := ih out1.cache
        rw [hc] at ihs ihc ihx ihw ihp
        simp [seqRun, h1, h2, hc, hs, hx, hw, ihs, ihc, ihx, ihw, ihp]

/-- Each dequeued item leads to at most one publish attempt. -/
theorem seqRun_sends_length (markets : List (Pubkey × Market))
    (marketNames : List (Pubkey × String)) (extOwner : Pubkey → Option Pubkey)
    (sendOk : Trade → Bool) (items : List (FillLog × String)) :
    ∀ cache : Cache,
      (seqRun markets marketNames extOwner sendOk cache items).sends.length ≤
        items.length := by
  induction items with
  | nil => intro cache; simp [seqRun]
  | cons item rest ih =>
    intro cache
    simp only [seqRun]
    cases hstep : consumerStep markets marketNames extOwner sendOk cache item with
    | error e => simp
    | ok out =>
      have hlen := ih out.cache
      cases hs : out.sent <;> simp [hs, Option.toList, List.length_cons] <;> omega

/-- C8: a socket send failure is swallowed: runs under any two socket
behaviors (for instance an always-failing and an always-succeeding
socket) publish the same trades in the same order, end with the same
cache, external calls, warnings and panic status — a failed send never
stops the loop — and each dequeued item is attempted at most once, so
a failed record is not retried or queued. -/
theorem c8_publish_failure_swallowed (markets : List (Pubkey × Market))
    (marketNames : List (Pubkey × String)) (extOwner : Pubkey → Option Pubkey)
    (sendFail sendSucceed : Trade → Bool) (cache : Cache)
    (items : List (FillLog × String)) :
    ((seqRun markets marketNames extOwner sendFail cache items).sends =
       (seqRun markets marketNames extOwner sendSucceed cache items).sends ∧
     (seqRun markets marketNames extOwner sendFail cache items).cache =
       (seqRun markets marketNames extOwner sendSucceed cache items).cache ∧
     (seqRun markets marketNames extOwner sendFail cache items).extCalls =
       (seqRun markets marketNames extOwner sendSucceed cache items).extCalls ∧
     (seqRun markets marketNames extOwner sendFail cache items).warnCount =
       (seqRun markets marketNames extOwner sendSucceed cache items).warnCount ∧
     (seqRun markets marketNames extOwner sendFail cache items).panicked =
       (seqRun markets marketNames extOwner sendSucceed cache items).panicked) ∧
    (seqRun markets marketNames extOwner sendFail cache items).sends.length ≤
      items.length :=
  ⟨seqRun_send_indep markets marketNames extOwner sendFail sendSucceed items cache,
   seqRun_sends_length markets marketNames extOwner sendFail items cache⟩

/-- Resolution from the empty cache never inserts: the guard
`contains_key` fails on the empty map. -/
theorem resolveOne_empty_cache (extOwner : Pubkey → Option Pubkey) (key : Pubkey) :
    (resolveOne extOwner [] key).cache = [] := by
  unfold resolveOne get_owner_account_for_ooa
  cases extOwner key <;> simp [mapFind]

/-- Resolution from the empty cache always queries the external source
exactly once. -/
theorem resolveOne_empty_calls (extOwner : Pubkey → Option Pubkey) (key : Pubkey) :
    (resolveOne extOwner [] key).calls = [key] := by
  unfold resolveOne get_owner_account_for_ooa
  cases extOwner key <;> simp [mapFind]

/-- A consumer step from the empty cache returns the empty cache and
performs exactly two external calls (maker and taker) when the venue is
known, none otherwise. -/
theorem consumerStep_empty_cache {markets : List (Pubkey × Market)}
    {marketNames : List (Pubkey × String)} {extOwner : Pubkey → Option Pubkey}
    {sendOk : Trade → Bool} {item : FillLog × String} {out : StepOut}
    (h : consumerStep markets marketNames extOwner sendOk [] item = .ok out) :
    out.cache = [] ∧
    out.extCalls.length = (if (mapFind item.1.market markets).isSome then 2 else 0) := by
  simp only [consumerStep] at h
  cases hm : mapFind item.1.market markets with
  | none =>
    rw [hm] at h
    injection h with h
    rw [← h]
    simp
  | some m =>
    rw [hm] at h
    cases hn : mapFind item.1.market marketNames with
    | none => rw [hn] at h; cases h
    | some nm =>
      rw [hn] at h
      injection h with h
      rw [← h]
      simp [resolveOne_empty_cache, resolveOne_empty_calls]

/-- C10: starting from the empty map, the ooa2owner cache stays empty
for the whole process run — the insert at main.rs lines 271-273 and
279-281 only fires when the key is already present — so nothing is
ever memoized and every resolution of every sub-account queries the
external source: exactly two external calls per fill on a known venue. -/
theorem c10_cache_stays_empty (markets : List (Pubkey × Market))
    (marketNames : List (Pubkey × String)) (extOwner : Pubkey → Option Pubkey)
    (sendOk : Trade → Bool) (items : List (FillLog × String)) :
    (seqRun markets marketNames extOwner sendOk [] items).cache = [] ∧
    ((seqRun markets marketNames extOwner sendOk [] items).panicked = false →
      (seqRun markets marketNames extOwner sendOk [] items).extCalls.length =
        2 * items.countP (fun it => (mapFind it.1.market markets).isSome)) := by
  induction items with
  | nil => exact ⟨rfl, fun _ => rfl⟩
  | cons item rest ih =>
    cases hstep : consumerStep markets marketNames extOwner sendOk [] item with
    | error e => refine ⟨?_, ?_⟩ <;> simp [seqRun, hstep]
    | ok out =>
      obtain ⟨hc, hcalls⟩ := consumerStep_empty_cache hstep
      obtain ⟨ihc, ihcalls⟩ := ih
      refine ⟨?_, ?_⟩
      · simp only [seqRun, hstep]
        rw [hc]
        exact ihc
      · intro hp
        simp only [seqRun, hstep] at hp ⊢
        rw [hc] at hp ⊢
        simp only [List.length_append, List.countP_cons]
        rw [hcalls, ihcalls hp]
        cases hms : (mapFind item.1.market markets).isSome
        · simp [hms]
        · simp [hms]
          omega

/-- Decomposition of a consumer run over an appended list, when the
run over the first half does not panic. -/
theorem seqRun_append (markets : List (Pubkey × Market))
    (marketNames : List (Pubkey × String)) (extOwner : Pubkey → Option Pubkey)
    (sendOk : Trade → Bool) (xs : List (FillLog × String)) :
    ∀ (c : Cache) (ys : List (FillLog × String)),
      (seqRun markets marketNames extOwner sendOk c xs).panicked = false →
      seqRun markets marketNames extOwner sendOk c (xs ++ ys) =
        { cache := (seqRun markets marketNames extOwner sendOk
            (seqRun markets marketNames extOwner sendOk c xs).cache ys).cache,
          sends := (seqRun markets marketNames extOwner sendOk c xs).sends ++
            (seqRun markets marketNames extOwner sendOk
              (seqRun markets marketNames extOwner sendOk c xs).cache ys).sends,
          extCalls := (seqRun markets marketNames extOwner sendOk c xs).extCalls ++
            (seqRun markets marketNames extOwner sendOk
              (seqRun markets marketNames extOwner sendOk c xs).cache ys).extCalls,
          warnCount := (seqRun markets marketNames extOwner sendOk c xs).warnCount +
            (seqRun markets marketNames extOwner sendOk
              (seqRun markets marketNames extOwner sendOk c xs).cache ys).warnCount,
          sendErrCount := (seqRun markets marketNames extOwner sendOk c xs).sendErrCount +
            (seqRun markets marketNames extOwner sendOk
              (seqRun markets marketNames extOwner sendOk c xs).cache ys).sendErrCount,
          panicked := (seqRun markets marketNames extOwner sendOk
            (seqRun markets marketNames extOwner sendOk c xs).cache ys).panicked } := by
  induction xs with
  | nil =>
    intro c ys h
    simp only [List.nil_append, seqRun, Nat.zero_add]
  | cons x xs ih =>
    intro c ys h
    simp only [List.cons_append, seqRun] at h ⊢
    cases hstep : consumerStep markets marketNames extOwner sendOk c x with
    | error e =>
      simp only [hstep] at h
      exact absurd h (by simp)
    | ok out =>
      simp only [hstep, List.append_eq] at h ⊢
      rw [ih out.cache ys h]
      simp [List.append_assoc, Nat.add_assoc]

/-- Consuming one more item extends a non-panicking sequential run. -/
theorem seqRun_snoc (markets : List (Pubkey × Market))
    (marketNames : List (Pubkey × String)) (extOwner : Pubkey → Option Pubkey)
    (sendOk : Trade → Bool) (done : List (FillLog × String)) (c0 : Cache)
    (it : FillLog × String) (out : StepOut)
    (hnp : (seqRun markets marketNames extOwner sendOk c0 done).panicked = false)
    (hstep : consumerStep markets marketNames extOwner sendOk
      (seqRun markets marketNames extOwner sendOk c0 done).cache it = .ok out) :
    (seqRun markets marketNames extOwner sendOk c0 (done ++ [it])).panicked = false ∧
    (seqRun markets marketNames extOwner sendOk c0 (done ++ [it])).cache = out.cache ∧
    (seqRun markets marketNames extOwner sendOk c0 (done ++ [it])).sends =
      (seqRun markets marketNames extOwner sendOk c0 done).sends ++ out.sent.toList := by
  rw [seqRun_append markets marketNames extOwner sendOk done c0 [it] hnp]
  simp only [seqRun, hstep]
  simp

/-- Invariant tying an interleaved execution to the sequential consumer
run: unless the process has panicked, some prefix of the original
items has been consumed, the system's cache and published list agree
with the sequential run over that prefix, and the channel queue plus
the producer's pending list hold exactly the remainder, in order. -/
def SysInv (markets : List (Pubkey × Market)) (marketNames : List (Pubkey × String))
    (extOwner : Pubkey → Option Pubkey) (sendOk : Trade → Bool)
    (items : List (FillLog × String)) (c0 : Cache) (s : Sys) : Prop :=
  s.panicked = true ∨ ∃ done,
    items = done ++ s.queue ++ s.pending ∧
    (seqRun markets marketNames extOwner sendOk c0 done).panicked = false ∧
    s.cache = (seqRun markets marketNames extOwner sendOk c0 done).cache ∧
    s.sends = (seqRun markets marketNames extOwner sendOk c0 done).sends

/-- Every atomic step of the two-task system preserves the invariant. -/
theorem sysStep_inv {markets : List (Pubkey × Market)}
    {marketNames : List (Pubkey × String)} {extOwner : Pubkey → Option Pubkey}
    {sendOk : Trade → Bool} {items : List (FillLog × String)} {c0 : Cache}
    (a : Bool) (s : Sys)
    (h : SysInv markets marketNames extOwner sendOk items c0 s) :
    SysInv markets marketNames extOwner sendOk items c0
      (sysStep markets marketNames extOwner sendOk a s) := by
  rcases h with hp | ⟨done, hitems, hnp, hcache, hsends⟩
  · left
    simp [sysStep, hp]
  · by_cases hpan : s.panicked = true
    · right
      have hstep : sysStep markets marketNames extOwner sendOk a s = s := by
        simp [sysStep, hpan]
      rw [hstep]
      exact ⟨done, hitems, hnp, hcache, hsends⟩
    · cases a with
      | true =>
        cases hq : s.pending with
        | nil =>
          right
          have hstep : sysStep markets marketNames extOwner sendOk true s = s := by
            simp [sysStep, hpan, hq]
          rw [hstep]
          exact ⟨done, hitems, hnp, hcache, hsends⟩
        | cons it rest =>
          right
          have hstep : sysStep markets marketNames extOwner sendOk true s =
              { s with pending := rest, queue := s.queue ++ [it] } := by
            simp [sysStep, hpan, hq]
          rw [hstep]
          refine ⟨done, ?_, hnp, hcache, hsends⟩
          rw [hitems, hq]
          simp [List.append_assoc]
      | false =>
        cases hq : s.queue with
        | nil =>
          right
          have hstep : sysStep markets marketNames extOwner sendOk false s = s := by
            simp [sysStep, hpan, hq]
          rw [hstep]
          exact ⟨done, hitems, hnp, hcache, hsends⟩
        | cons it rest =>
          cases hstep : consumerStep markets marketNames extOwner sendOk s.cache it with
          | error e =>
            left
            simp [sysStep, hpan, hq, hstep]
          | ok out =>
            right
            have hstep2 : sysStep markets marketNames extOwner sendOk false s =
                { s with queue := rest, cache := out.cache,
                         sends := s.sends ++ out.sent.toList } := by
              simp [sysStep, hpan, hq, hstep]
            rw [hstep2]
            have hstep' : consumerStep markets marketNames extOwner sendOk
                (seqRun markets marketNames extOwner sendOk c0 done).cache it = .ok out := by
              rw [← hcache]; exact hstep
            obtain ⟨hpk, hck, hsk⟩ :=
              seqRun_snoc markets marketNames extOwner sendOk done c0 it out hnp hstep'
            refine ⟨done ++ [it], ?_, hpk, ?_, ?_⟩
            · rw [hitems, hq]
              simp [List.append_assoc]
            · rw [hck]
            · rw [hsk, hsends]

/-- A whole schedule preserves the invariant. -/
theorem sysRun_inv {markets : List (Pubkey × Market)}
    {marketNames : List (Pubkey × String)} {extOwner : Pubkey → Option Pubkey}
    {sendOk : Trade → Bool} {items : List (FillLog × String)} {c0 : Cache}
    (sched : List Bool) :
    ∀ s : Sys, SysInv markets marketNames extOwner sendOk items c0 s →
      SysInv markets marketNames extOwner sendOk items c0
        (sysRun markets marketNames extOwner sendOk sched s) := by
  induction sched with
  | nil => exact fun s h => h
  | cons a sched ih => exact fun s h => ih _ (sysStep_inv a s h)

/-- Shape of a consumer step's publication: nothing for an unknown
venue, one trade carrying the item's transaction signature otherwise. -/
theorem consumerStep_sent_shape {markets : List (Pubkey × Market)}
    {marketNames : List (Pubkey × String)} {extOwner : Pubkey → Option Pubkey}
    {sendOk : Trade → Bool} {cache : Cache} {item : FillLog × String} {out : StepOut}
    (hstep : consumerStep markets marketNames extOwner sendOk cache item = .ok out) :
    ((mapFind item.1.market markets).isSome = false ∧ out.sent = none) ∨
    ((mapFind item.1.market markets).isSome = true ∧
      ∃ t, out.sent = some t ∧ t.signature = item.2) := by
  simp only [consumerStep] at hstep
  cases hm : mapFind item.1.market markets with
  | none =>
    rw [hm] at hstep
    injection hstep with h
    rw [← h]
    exact Or.inl ⟨rfl, rfl⟩
  | some m =>
    rw [hm] at hstep
    cases hn : mapFind item.1.market marketNames with
    | none => rw [hn] at hstep; cases hstep
    | some nm =>
      rw [hn] at hstep
      injection hstep with h
      rw [← h]
      exact Or.inr ⟨rfl, _, rfl, rfl⟩

/-- In a non-panicking run, the published signatures are exactly the
signatures of the known-venue items, in their original order. -/
theorem seqRun_sends_signatures (markets : List (Pubkey × Market))
    (marketNames : List (Pubkey × String)) (extOwner : Pubkey → Option Pubkey)
    (sendOk : Trade → Bool) (items : List (FillLog × String)) :
    ∀ cache : Cache,
      (seqRun markets marketNames extOwner sendOk cache items).panicked = false →
      (seqRun markets marketNames extOwner sendOk cache items).sends.map
          (fun t => t.signature) =
        (items.filter (fun it => (mapFind it.1.market markets).isSome)).map
          (fun it => it.2) := by
  induction items with
  | nil => intro cache _; simp [seqRun]
  | cons item rest ih =>
    intro cache h
    simp only [seqRun] at h ⊢
    cases hstep : consumerStep markets marketNames extOwner sendOk cache item with
    | error e =>
      simp only [hstep] at h
      exact absurd h (by simp)
    | ok out =>
      simp only [hstep] at h ⊢
      rcases consumerStep_sent_shape hstep with ⟨hms, hsent⟩ | ⟨hms, t, hsent, hsig⟩
      · simp [hsent, hms, List.filter_cons, ih out.cache h]
      · simp [hsent, hms, List.filter_cons, hsig, ih out.cache h]

/-- C9: the channel between producer and consumer is first-in
first-out: any interleaved schedule of the two tasks that fully drains
the producer and the channel publishes exactly the trades of the
in-order sequential consumer run, and (when the run does not panic)
the published signatures are the signatures of the known-venue events
in their original enqueue order. -/
theorem c9_fifo_order (markets : List (Pubkey × Market))
    (marketNames : List (Pubkey × String)) (extOwner : Pubkey → Option Pubkey)
    (sendOk : Trade → Bool) (items : List (FillLog × String)) (c0 : Cache)
    (sched : List Bool)
    (hpend : (sysRun markets marketNames extOwner sendOk sched
      ⟨items, [], c0, [], false⟩).pending = [])
    (hq : (sysRun markets marketNames extOwner sendOk sched
      ⟨items, [], c0, [], false⟩).queue = [])
    (hp : (sysRun markets marketNames extOwner sendOk sched
      ⟨items, [], c0, [], false⟩).panicked = false) :
    (sysRun markets marketNames extOwner sendOk sched
        ⟨items, [], c0, [], false⟩).sends =
      (seqRun markets marketNames extOwner sendOk c0 items).sends ∧
    ((seqRun markets marketNames extOwner sendOk c0 items).panicked = false →
      (seqRun markets marketNames extOwner sendOk c0 items).sends.map
          (fun t => t.signature) =
        (items.filter (fun it => (mapFind it.1.market markets).isSome)).map
          (fun it => it.2)) := by
  have hinit : SysInv markets marketNames extOwner sendOk items c0
      ⟨items, [], c0, [], false⟩ := by
    right
    exact ⟨[], by simp, rfl, rfl, rfl⟩
  have hinv := sysRun_inv sched ⟨items, [], c0, [], false⟩ hinit
  rcases hinv with hpk | ⟨done, hitems, hnp, hcache, hsends⟩
  · rw [hp] at hpk
    cases hpk
  · have hdone : done = items := by
      rw [hpend, hq] at hitems
      simpa using hitems.symm
    refine ⟨?_, seqRun_sends_signatures markets marketNames extOwner sendOk items c0⟩
    rw [hsends, hdone]

/-- C9 witness: two events pushed and consumed under an alternating
schedule; the system drains fully without panicking and publishes
the two signatures in enqueue order. -/
theorem c9_witness :
    ((sysRun [(1, mktFix)] [(1, nameM)] oracleFix sendAlwaysOk [true, false, true, false]
        ⟨[(mkFill 1 5 6, sigA), (mkFill 1 7 8, sigB)], [], [], [], false⟩).pending = [] ∧
     (sysRun [(1, mktFix)] [(1, nameM)] oracleFix sendAlwaysOk [true, false, true, false]
        ⟨[(mkFill 1 5 6, sigA), (mkFill 1 7 8, sigB)], [], [], [], false⟩).queue = [] ∧
     (sysRun [(1, mktFix)] [(1, nameM)] oracleFix sendAlwaysOk [true, false, true, false]
        ⟨[(mkFill 1 5 6, sigA), (mkFill 1 7 8, sigB)], [], [], [], false⟩).panicked = false) ∧
    ((sysRun [(1, mktFix)] [(1, nameM)] oracleFix sendAlwaysOk [true, false, true, false]
        ⟨[(mkFill 1 5 6, sigA), (mkFill 1 7 8, sigB)], [], [], [], false⟩).sends =
      (seqRun [(1, mktFix)] [(1, nameM)] oracleFix sendAlwaysOk []
        [(mkFill 1 5 6, sigA), (mkFill 1 7 8, sigB)]).sends ∧
     ((seqRun [(1, mktFix)] [(1, nameM)] oracleFix sendAlwaysOk []
         [(mkFill 1 5 6, sigA), (mkFill 1 7 8, sigB)]).panicked = false →
       (seqRun [(1, mktFix)] [(1, nameM)] oracleFix sendAlwaysOk []
           [(mkFill 1 5 6, sigA), (mkFill 1 7 8, sigB)]).sends.map
           (fun t => t.signature) =
         ([(mkFill 1 5 6, sigA), (mkFill 1 7 8, sigB)].filter
             (fun it => (mapFind it.1.market [(1, mktFix)]).isSome)).map
           (fun it => it.2))) :=
  ⟨⟨by decide, by decide, by decide⟩,
   c9_fifo_order [(1, mktFix)] [(1, nameM)] oracleFix sendAlwaysOk
     [(mkFill 1 5 6, sigA), (mkFill 1 7 8, sigB)] [] [true, false, true, false]
     (by decide) (by decide) (by decide)⟩

/-- C10 witness: the theorem applied to one fill on the known venue 1
and one on the unknown venue 2: the final cache is empty and exactly
two external calls were made. -/
theorem c10_witness :
    (seqRun [(1, mktFix)] [(1, nameM)] oracleFix sendAlwaysOk []
        [(mkFill 1 5 6, sigA), (mkFill 2 5 6, sigB)]).cache = [] ∧
    (seqRun [(1, mktFix)] [(1, nameM)] oracleFix sendAlwaysOk []
        [(mkFill 1 5 6, sigA), (mkFill 2 5 6, sigB)]).panicked = false ∧
    (seqRun [(1, mktFix)] [(1, nameM)] oracleFix sendAlwaysOk []
        [(mkFill 1 5 6, sigA), (mkFill 2 5 6, sigB)]).extCalls.length =
      2 * ([(mkFill 1 5 6, sigA), (mkFill 2 5 6, sigB)].countP
            (fun it => (mapFind it.1.market [(1, mktFix)]).isSome)) :=
  ⟨(c10_cache_stays_empty [(1, mktFix)] [(1, nameM)] oracleFix sendAlwaysOk
      [(mkFill 1 5 6, sigA), (mkFill 2 5 6, sigB)]).1,
   by decide,
   (c10_cache_stays_empty [(1, mktFix)] [(1, nameM)] oracleFix sendAlwaysOk
      [(mkFill 1 5 6, sigA), (mkFill 2 5 6, sigB)]).2 (by decide)⟩

end OpenbookPrinter
